import Mathlib

/-!
Shallow embedding of the synthesizer/sequencer core of `src/main.cpp`
(DCubix/tracker).  Floating-point values are modelled as rationals, with the
C++ float literals taken at their decimal value.  External primitives are
modelled as inputs: `std::sin` becomes a function parameter `sinF`, and the
C standard library `rand()` draw becomes a parameter holding the already
normalized value `(float(rand() % RAND_MAX) / RAND_MAX) * 2 - 1`.  Raw
pointers (`Instrument*`) become `Option Instrument` with value semantics.
Stateful member functions become pure functions returning the result
together with the updated state.
-/

/-- `#define PI 3.141592654f` -/
def PI : ℚ := 3.141592654

/-- `#define HERTZ (1.0 / 60.0)` -/
def HERTZ : ℚ := 1 / 60

/-- `#define LERP(a, b, t) ((1.0f - (t)) * (a) + (b) * (t))` -/
def LERP (a b t : ℚ) : ℚ := (1 - t) * a + b * t

/-- `#define MIX(a, b) ((a) + (b) - ((a) * (b)))` -/
def MIX (a b : ℚ) : ℚ := a + b - a * b

/-- Truncation toward zero: the C++ conversion from a floating value to an
integral type. -/
def truncQ (q : ℚ) : ℤ := if q < 0 then ⌈q⌉ else ⌊q⌋

/-- `std::clamp(x, lo, hi)`: `x < lo ? lo : (hi < x ? hi : x)`. -/
def clampQ (x lo hi : ℚ) : ℚ := if x < lo then lo else if hi < x then hi else x

/-- `#define SAMPLE(x) (Uint8((std::clamp((x), -1.0f, 1.0f) * 0.5f + 0.5f) * 255.0f))`
The `Uint8(...)` conversion truncates toward zero (the argument is always in
`[0, 255]`, so the conversion is defined and no wrap-around occurs). -/
def SAMPLE (x : ℚ) : ℤ := truncQ ((clampQ x (-1) 1 * (1/2) + 1/2) * 255)

/-- `static const float NOTE[12]` -/
def NOTE : List ℚ :=
  [32.70320, 34.64783, 36.70810, 38.89087, 41.20344, 43.65353,
   46.24930, 48.99943, 51.91309, 55.00000, 58.27047, 61.73541]

/-- `Phase::get(freq, sampleRate)`: returns the pre-advance phase and the
updated phase (state passed explicitly; the member `m_phase` is the
argument `phase`). -/
def Phase.get (phase freq sampleRate : ℚ) : ℚ × ℚ :=
  let p := phase
  let phase2 := phase + (PI * 2 * freq) / sampleRate
  if phase2 ≥ PI * 2 then (p, phase2 - PI * 2) else (p, phase2)

/-- `Phase::norm(freq, sampleRate)`: `get(freq, sampleRate) / (PI * 2.0f)`,
returning the normalized pre-advance phase and the updated phase. -/
def Phase.norm (phase freq sampleRate : ℚ) : ℚ × ℚ :=
  let r := Phase.get phase freq sampleRate
  (r.1 / (PI * 2), r.2)

/-- State of `class WaveTable`: the 24-entry `m_waveTable`, `m_noise` and
`m_lastNoise`. -/
structure WaveTable where
  table : List ℚ
  noise : Bool
  lastNoise : ℚ
deriving DecidableEq

/-- `WaveTable::sample(t)`.  `rnd` is the fresh normalized `rand()` draw used
if the noise branch re-rolls.  In the table branch,
`int(std::floor(t * size)) % size` is the floor of `t·N` reduced mod `N`
(mathematical mod; it coincides with the C++ expression for the in-range
`t ≥ 0` the callers produce). -/
def WaveTable.sample (wt : WaveTable) (rnd t : ℚ) : WaveTable × ℚ :=
  if wt.noise then
    if t ≥ 1/2 then ({ wt with lastNoise := rnd }, rnd)
    else (wt, wt.lastNoise)
  else
    let N : ℤ := wt.table.length
    let i := (⌊t * (N : ℚ)⌋ % N).toNat
    let n := (i + 1) % wt.table.length
    (wt, LERP (wt.table.getD i 0) (wt.table.getD n 0) t)

/-- The five `ADSR::State` values. -/
inductive ADSRState where
  | Idle
  | Attack
  | Decay
  | Sustain
  | Release
deriving DecidableEq

/-- State of `class ADSR`: the four time parameters, `m_out` and `m_state`. -/
structure ADSR where
  attack : ℚ
  decay : ℚ
  sustain : ℚ
  release : ℚ
  out : ℚ
  state : ADSRState
deriving DecidableEq

/-- `ADSR::gate(g)`. -/
def ADSR.gate (e : ADSR) (g : Bool) : ADSR :=
  if g then { e with state := ADSRState.Attack }
  else if e.state ≠ ADSRState.Idle then { e with state := ADSRState.Release }
  else e

/-- `ADSR::sample(rate)`: one step of the envelope state machine, returning
the updated envelope and the returned `m_out`. -/
def ADSR.sample (e : ADSR) (rate : ℚ) : ADSR × ℚ :=
  match e.state with
  | ADSRState.Attack =>
      let o := e.out + (1 / e.attack) / rate
      if o ≥ 1 ∨ e.attack ≤ 1/100000 then
        ({ e with state := ADSRState.Decay, out := 1 }, 1)
      else ({ e with out := o }, o)
  | ADSRState.Decay =>
      let o := e.out - (1 / e.decay) / rate
      if o ≤ e.sustain ∨ e.decay ≤ 1/100000 then
        ({ e with out := e.sustain, state := ADSRState.Sustain }, e.sustain)
      else ({ e with out := o }, o)
  | ADSRState.Release =>
      let o := e.out - (1 / e.release) / rate
      if o ≤ 1/100000 then ({ e with out := 0, state := ADSRState.Idle }, 0)
      else ({ e with out := o }, o)
  | _ => (e, e.out)

/-- Iterated `ADSR::sample` (the envelope state after `n` calls). -/
def ADSR.sampleN (e : ADSR) (rate : ℚ) : ℕ → ADSR
  | 0 => e
  | n + 1 => ((ADSR.sampleN e rate n).sample rate).1

/-- State of `class Instrument`: chorus voice count, the per-voice phase
accumulators (`MAX_CHORUS_VOICES = 3` entries), the 16-entry note-offset
table, the shared wavetable and the shared envelope. -/
structure Instrument where
  voices : ℕ
  voicePhases : List ℚ
  notes : List ℤ
  waveTable : WaveTable
  volume : ADSR
deriving DecidableEq

/-- The loop body of `Instrument::sample`: for each voice `v`,
`sample += m_waveTable.sample(m_voicePhases[v].norm(freq, sampleRate))` and
`freq -= 1.0f`, threading the wavetable and phase state.  `cnt` counts the
remaining iterations, `v` the current voice index, `rnd v` the `rand()` draw
available to voice `v`. -/
def Instrument.sampleLoop (rnd : ℕ → ℚ) (sampleRate : ℚ) :
    ℕ → ℕ → ℚ → ℚ → List ℚ → WaveTable → ℚ × List ℚ × WaveTable
  | 0, _, acc, _, phs, wt => (acc, phs, wt)
  | cnt + 1, v, acc, freq, phs, wt =>
      let pr := Phase.norm (phs.getD v 0) freq sampleRate
      let ws := wt.sample (rnd v) pr.1
      Instrument.sampleLoop rnd sampleRate cnt (v + 1) (acc + ws.2) (freq - 1)
        (phs.set v pr.2) ws.1

/-- `Instrument::sample(freq, sampleRate)`: accumulate the detuned voices,
divide by the voice count, multiply by the envelope sample. -/
def Instrument.sample (ins : Instrument) (rnd : ℕ → ℚ) (freq sampleRate : ℚ) :
    Instrument × ℚ :=
  let lp := Instrument.sampleLoop rnd sampleRate ins.voices 0 0 freq
    ins.voicePhases ins.waveTable
  let vs := ins.volume.sample sampleRate
  ({ ins with voicePhases := lp.2.1, waveTable := lp.2.2, volume := vs.1 },
   lp.1 / (ins.voices : ℚ) * vs.2)

/-- `enum class Effect`. -/
inductive Effect where
  | None
  | Vibrato
  | Slide
  | Arpeggio
deriving DecidableEq

/-- `enum class Arpeggio` (the chord types). -/
inductive ArpeggioChord where
  | Major
  | Minor
  | Maj7
  | Min7
  | Sus4
  | Sus2
  | Octave
deriving DecidableEq

/-- `struct Sound`.  `note` is a `uint8_t`; the `Instrument*` pointer is an
`Option Instrument` held by value. -/
structure Sound where
  note : ℕ
  volume : ℚ
  effect : Effect
  arpeggio : ArpeggioChord
  effectSpeed : ℚ
  instrument : Option Instrument
deriving DecidableEq

/-- `Sound::frequency(noteOffset)`: clamp the signed total to `0` when
negative, then `NOTE[n % 12] * std::pow(2, n / 12)` (integer division). -/
def Sound.frequency (s : Sound) (noteOffset : ℤ) : ℚ :=
  let n : ℤ := (s.note : ℤ) + noteOffset
  let m : ℕ := (if n < 0 then 0 else n).toNat
  NOTE.getD (m % 12) 0 * (2 : ℚ) ^ (m / 12)

/-- The per-chord `offs[int(p * len)]` selection inside `Channel::sample`'s
arpeggio switch, with `p` the normalized LFO phase value returned by
`m_phase.norm(...)`.  The C++ `int(...)` cast truncates toward zero. -/
def arpeggioOffset (arp : ArpeggioChord) (p : ℚ) : ℤ :=
  match arp with
  | ArpeggioChord.Major => [0, 4, 7].getD (truncQ (p * 3)).toNat 0
  | ArpeggioChord.Minor => [0, 3, 7].getD (truncQ (p * 3)).toNat 0
  | ArpeggioChord.Sus4 => [0, 5, 7].getD (truncQ (p * 3)).toNat 0
  | ArpeggioChord.Sus2 => [0, 2, 7].getD (truncQ (p * 3)).toNat 0
  | ArpeggioChord.Maj7 => [0, 4, 7, 10].getD (truncQ (p * 4)).toNat 0
  | ArpeggioChord.Min7 => [0, 3, 7, 10].getD (truncQ (p * 4)).toNat 0
  | ArpeggioChord.Octave => [0, 12].getD (truncQ (p * 2)).toNat 0

/-- State of `class Channel`: the effect LFO phase, the beat-local and
note-table timers, current/previous Sound, flags, and the bar / note-table
counters (both C++ `int`s that start at `0` and never go negative). -/
structure Channel where
  phase : ℚ
  time : ℚ
  notesTime : ℚ
  current : Sound
  previous : Sound
  playing : Bool
  sliding : Bool
  bar : ℕ
  currentNote : ℕ
deriving DecidableEq

/-- The frequency-resolution block of `Channel::sample` (the statements from
`int noff = ...` through the vibrato branch), for a non-null instrument
`ins`.  Returns the resolved frequency, the updated LFO phase and the
updated sliding flag.  `sinF` models `std::sin`. -/
def Channel.resolveFrequency (sinF : ℚ → ℚ) (ch : Channel) (ins : Instrument)
    (bpm delay sampleRate : ℚ) : ℚ × ℚ × Bool :=
  let noff0 : ℤ := ins.notes.getD ch.currentNote 0
  let speed := ch.current.effectSpeed * (1/4)
  let arp :=
    if ch.current.effect = Effect.Arpeggio then
      let pr := Phase.norm ch.phase (HERTZ * bpm * speed) sampleRate
      (noff0 + arpeggioOffset ch.current.arpeggio pr.1, pr.2)
    else (noff0, ch.phase)
  let noff := arp.1
  let freq0 := ch.current.frequency noff
  let slide :=
    if ch.current.effect = Effect.Slide ∧ ch.bar % 4 = 0 ∧ ch.sliding = true then
      let t := ch.time / delay
      (LERP (ch.previous.frequency noff) freq0 t,
       if t ≥ 1 - 1/1000 then false else ch.sliding)
    else (freq0, ch.sliding)
  let vib :=
    if ch.current.effect = Effect.Vibrato then
      let pr := Phase.get arp.2 (HERTZ * bpm * speed) sampleRate
      (slide.1 - (sinF (pr.1 + PI) * (1/2) + 1/2) * (NOTE.getD 2 0 - NOTE.getD 0 0),
       pr.2)
    else (slide.1, arp.2)
  (vib.1, vib.2, slide.2)

/-- `Channel::sample(bpm, step, sampleRate)`: returns the output sample and
the updated channel.  A null instrument returns `0` immediately (no state is
advanced).  Otherwise the frequency is resolved, the bar/beat and note-table
timers advance, and the instrument (mutated in place in C++) is sampled and
stored back. -/
def Channel.sample (sinF : ℚ → ℚ) (rnd : ℕ → ℚ) (ch : Channel)
    (bpm step sampleRate : ℚ) : ℚ × Channel :=
  let delay := 60000 / bpm / 1000
  match ch.current.instrument with
  | none => (0, ch)
  | some ins =>
    let rf := ch.resolveFrequency sinF ins bpm delay sampleRate
    let time2 := ch.time + step
    let tb := if time2 ≥ delay then ((0 : ℚ), ch.bar + 1) else (time2, ch.bar)
    let nt2 := ch.notesTime + step * 2
    let nn :=
      if nt2 ≥ delay / 2 then
        ((0 : ℚ), if ch.currentNote + 1 > 15 then 15 else ch.currentNote + 1)
      else (nt2, ch.currentNote)
    let is := ins.sample rnd rf.1 sampleRate
    (is.2 * ch.current.volume,
     { ch with
        phase := rf.2.1
        sliding := rf.2.2
        time := tb.1
        bar := tb.2
        notesTime := nn.1
        currentNote := nn.2
        current := { ch.current with instrument := some is.1 } })

/-! Concrete fixtures used by witnesses and counterexamples. -/

/-- A 24-entry wavetable whose entry `i` holds the value `i`. -/
def rampTable : List ℚ :=
  [0, 1, 2, 3, 4, 5, 6, 7, 8, 9, 10, 11,
   12, 13, 14, 15, 16, 17, 18, 19, 20, 21, 22, 23]

/-- The ramp wavetable in table (non-noise) mode. -/
def wtRamp : WaveTable := ⟨rampTable, false, 0⟩

/-- A wavetable in noise mode holding last-noise value `0`. -/
def wtNoise : WaveTable := ⟨List.replicate 24 0, true, 0⟩

/-- A trivial stand-in for `std::sin` (never reached in the witnesses). -/
def sin0 : ℚ → ℚ := fun _ => 0

/-- A trivial stand-in for the `rand()` draws. -/
def rnd0 : ℕ → ℚ := fun _ => 0

/-- A default-constructed instrument: one voice, zeroed phases and note
table, sine-free ramp-less flat state. -/
def insFix : Instrument :=
  ⟨1, [0, 0, 0], List.replicate 16 0, ⟨List.replicate 24 0, false, 0⟩,
   ⟨0, 0, 1, 0, 0, ADSRState.Idle⟩⟩

/-- A channel whose current Sound has a null instrument reference. -/
def chNull : Channel :=
  ⟨0, 0, 0, ⟨24, 1, Effect.None, ArpeggioChord.Major, 1, none⟩,
   ⟨24, 1, Effect.None, ArpeggioChord.Major, 1, none⟩, false, false, 0, 0⟩

/-- A channel mid-slide: current note 36, previous note 24, Slide effect,
sliding flag set, bar counter at a multiple of 4, a quarter beat elapsed. -/
def chSlide : Channel :=
  ⟨0, 1/4, 0, ⟨36, 1, Effect.Slide, ArpeggioChord.Major, 1, some insFix⟩,
   ⟨24, 1, Effect.Slide, ArpeggioChord.Major, 1, some insFix⟩, true, true, 4, 0⟩

/-- A sound whose note plus a negative offset goes below zero. -/
def sndLow : Sound := ⟨3, 1, Effect.None, ArpeggioChord.Major, 1, none⟩

/-! Helper lemmas. -/

theorem adsr_sample_attack (a d s r o R : ℚ) :
    (ADSR.sample ⟨a, d, s, r, o, ADSRState.Attack⟩ R).1 =
      if o + (1/a)/R ≥ 1 ∨ a ≤ 1/100000 then ⟨a, d, s, r, 1, ADSRState.Decay⟩
      else ⟨a, d, s, r, o + (1/a)/R, ADSRState.Attack⟩ := by
  unfold ADSR.sample
  dsimp only
  split_ifs <;> rfl

theorem adsr_sample_decay (a d s r o R : ℚ) :
    (ADSR.sample ⟨a, d, s, r, o, ADSRState.Decay⟩ R).1 =
      if o - (1/d)/R ≤ s ∨ d ≤ 1/100000 then ⟨a, d, s, r, s, ADSRState.Sustain⟩
      else ⟨a, d, s, r, o - (1/d)/R, ADSRState.Decay⟩ := by
  unfold ADSR.sample
  dsimp only
  split_ifs <;> rfl

theorem adsr_sample_release (a d s r o R : ℚ) :
    (ADSR.sample ⟨a, d, s, r, o, ADSRState.Release⟩ R).1 =
      if o - (1/r)/R ≤ 1/100000 then ⟨a, d, s, r, 0, ADSRState.Idle⟩
      else ⟨a, d, s, r, o - (1/r)/R, ADSRState.Release⟩ := by
  unfold ADSR.sample
  dsimp only
  split_ifs <;> rfl

theorem adsr_sample_sustain (a d s r o R : ℚ) :
    (ADSR.sample ⟨a, d, s, r, o, ADSRState.Sustain⟩ R).1 =
      ⟨a, d, s, r, o, ADSRState.Sustain⟩ := rfl

theorem adsr_sample_idle (a d s r o R : ℚ) :
    (ADSR.sample ⟨a, d, s, r, o, ADSRState.Idle⟩ R).1 =
      ⟨a, d, s, r, o, ADSRState.Idle⟩ := rfl

theorem adsr_sampleN_add (e : ADSR) (R : ℚ) (m n : ℕ) :
    ADSR.sampleN e R (m + n) = ADSR.sampleN (ADSR.sampleN e R m) R n := by
  induction n with
  | zero => rfl
  | succ n ih => rw [Nat.add_succ]; simp only [ADSR.sampleN]; rw [ih]

/-! Claim theorems. -/

/-- C5: the blend combinator `MIX(a,b) = a + b - a·b` is commutative, has
`0` as left identity and `1` as left absorbing element. -/
theorem c5_mix_algebra (a b : ℚ) :
    MIX a b = MIX b a ∧ MIX 0 b = b ∧ MIX 1 b = 1 := by
  refine ⟨?_, ?_, ?_⟩ <;> unfold MIX <;> ring

/-- C3 (code bug): with noise off and the 24-entry ramp table, sampling at
`t = 1/2` uses `t` itself as the interpolation weight, so the result `25/2`
differs from the claimed interpolation with fractional weight
`t·24 − ⌊t·24⌋ = 0`, which would give table entry 12. -/
theorem c3_wavetable_lerp_weight_bug :
    (WaveTable.sample wtRamp 0 (1/2)).2 = 25/2 ∧
    LERP (wtRamp.table.getD 12 0) (wtRamp.table.getD 13 0) ((1/2) * 24 - 12) = 12 ∧
    (WaveTable.sample wtRamp 0 (1/2)).2 ≠
      LERP (wtRamp.table.getD 12 0) (wtRamp.table.getD 13 0) ((1/2) * 24 - 12) := by
  refine ⟨?_, ?_, ?_⟩ <;> with_unfolding_all decide

/-- C4 counterexample: two consecutive noise-mode calls, both with
`t ≥ 0.5`, each re-roll the stored value, so with distinct `rand()` draws
they return different values — refuting "re-rolls only on the call where
`t` crosses `0.5`" and "two consecutive calls both with `t ≥ 0.5` return
the same value". -/
theorem c4_noise_reroll_counterexample :
    ((wtNoise.sample 1 (3/5)).1.sample 0 (7/10)).2 ≠ (wtNoise.sample 1 (3/5)).2 := by
  with_unfolding_all decide

/-- C4 amended: in noise mode the stored value is re-rolled on EVERY call
with `t ≥ 0.5` (returning the fresh draw), and held unchanged on calls with
`t < 0.5`. -/
theorem c4_noise_reroll_amended (wt : WaveTable) (rnd t : ℚ)
    (h : wt.noise = true) :
    (t ≥ 1/2 → wt.sample rnd t = ({ wt with lastNoise := rnd }, rnd)) ∧
    (t < 1/2 → wt.sample rnd t = (wt, wt.lastNoise)) := by
  constructor <;> intro ht <;> unfold WaveTable.sample <;>
    split_ifs <;> first | rfl | (exfalso; linarith)

theorem c4_noise_reroll_amended_witness :
    ((3/5 : ℚ) ≥ 1/2 → wtNoise.sample 1 (3/5) = ({ wtNoise with lastNoise := 1 }, 1)) ∧
    ((3/5 : ℚ) < 1/2 → wtNoise.sample 1 (3/5) = (wtNoise, wtNoise.lastNoise)) :=
  c4_noise_reroll_amended wtNoise 1 (3/5) rfl

/-- C8 counterexample: at engine output `0` the byte written is the
truncation `127`, not the claimed rounding `round(127.5) = 128`. -/
theorem c8_quantizer_counterexample :
    SAMPLE 0 = 127 ∧ round ((clampQ 0 (-1) 1 * (1/2) + 1/2) * 255) = 128 ∧
    SAMPLE 0 ≠ round ((clampQ 0 (-1) 1 * (1/2) + 1/2) * 255) := by
  refine ⟨?_, ?_, ?_⟩
  · with_unfolding_all rfl
  · norm_num [clampQ, round_eq]
  · norm_num [SAMPLE, truncQ, clampQ, round_eq]

/-- C8 amended: the byte written to the sink is the floor (truncation) of
`(clamp(x,-1,1)·0.5 + 0.5)·255`, which always lies in `[0, 255]`. -/
theorem c8_quantizer_amended (x : ℚ) :
    SAMPLE x = ⌊(clampQ x (-1) 1 * (1/2) + 1/2) * 255⌋ ∧
    0 ≤ SAMPLE x ∧ SAMPLE x ≤ 255 := by
  have hlo : (-1 : ℚ) ≤ clampQ x (-1) 1 := by
    unfold clampQ; split_ifs <;> linarith
  have hhi : clampQ x (-1) 1 ≤ 1 := by
    unfold clampQ; split_ifs <;> linarith
  have h0 : (0 : ℚ) ≤ (clampQ x (-1) 1 * (1/2) + 1/2) * 255 := by nlinarith
  have h255 : (clampQ x (-1) 1 * (1/2) + 1/2) * 255 ≤ 255 := by nlinarith
  have hfl : SAMPLE x = ⌊(clampQ x (-1) 1 * (1/2) + 1/2) * 255⌋ := by
    unfold SAMPLE truncQ
    rw [if_neg (not_lt.2 h0)]
  refine ⟨hfl, ?_, ?_⟩
  · rw [hfl]
    exact Int.floor_nonneg.2 h0
  · rw [hfl]
    have h1 : ⌊(clampQ x (-1) 1 * (1/2) + 1/2) * 255⌋ ≤ ⌊(255 : ℚ)⌋ :=
      Int.floor_le_floor h255
    have h2 : ⌊(255 : ℚ)⌋ = 255 := by
      rw [show (255 : ℚ) = ((255 : ℤ) : ℚ) by norm_num, Int.floor_intCast]
    omega

theorem adsr_attack_invariant (a r R : ℚ) (ha : 1/100000 < a) (hR : 0 < R) :
    ∀ j : ℕ, (j : ℚ) < a * R →
      ADSR.sampleN ⟨a, 0, 1, r, 0, ADSRState.Attack⟩ R j =
        ⟨a, 0, 1, r, (j : ℚ) / (a * R), ADSRState.Attack⟩ := by
  have ha0 : 0 < a := lt_trans (by norm_num) ha
  have haR : 0 < a * R := mul_pos ha0 hR
  intro j
  induction j with
  | zero => intro _; simp [ADSR.sampleN]
  | succ j ih =>
    intro hj
    have hj' : (j : ℚ) < a * R := by
      refine lt_of_le_of_lt ?_ hj
      push_cast
      linarith
    simp only [ADSR.sampleN]
    rw [ih hj', adsr_sample_attack]
    have hsum : (j : ℚ) / (a * R) + (1/a)/R = ((j : ℚ) + 1) / (a * R) := by
      rw [div_div]; ring
    have hlt : ((j : ℚ) + 1) / (a * R) < 1 := by
      rw [div_lt_one haR]
      push_cast at hj
      linarith
    rw [if_neg]
    · rw [hsum]
      push_cast
      ring_nf
    · push_neg
      constructor
      · rw [hsum]; exact hlt
      · linarith

theorem adsr_reach_one (a r R : ℚ) (ha : 1/100000 < a) (hR : 0 < R) :
    ADSR.sampleN ⟨a, 0, 1, r, 0, ADSRState.Attack⟩ R (⌈a * R⌉.toNat) =
      ⟨a, 0, 1, r, 1, ADSRState.Decay⟩ := by
  have ha0 : 0 < a := lt_trans (by norm_num) ha
  have haR : 0 < a * R := mul_pos ha0 hR
  have hceil : 0 < ⌈a * R⌉ := Int.ceil_pos.2 haR
  have hk1 : 1 ≤ ⌈a * R⌉.toNat := by omega
  obtain ⟨j, hj⟩ : ∃ j, ⌈a * R⌉.toNat = j + 1 := ⟨⌈a * R⌉.toNat - 1, by omega⟩
  have hkc : ((⌈a * R⌉.toNat : ℕ) : ℚ) = ((⌈a * R⌉ : ℤ) : ℚ) := by
    exact_mod_cast congrArg (fun z : ℤ => (z : ℚ)) (Int.toNat_of_nonneg (le_of_lt hceil))
  have hub : a * R ≤ ((⌈a * R⌉.toNat : ℕ) : ℚ) := by
    rw [hkc]; exact Int.le_ceil _
  have hlb : ((j : ℕ) : ℚ) < a * R := by
    have h1 : ((⌈a * R⌉ : ℤ) : ℚ) < a * R + 1 := Int.ceil_lt_add_one _
    have h2 : ((j : ℕ) : ℚ) = ((⌈a * R⌉.toNat : ℕ) : ℚ) - 1 := by
      rw [hj]; push_cast; ring
    rw [h2, hkc]
    linarith
  rw [hj]
  simp only [ADSR.sampleN]
  rw [adsr_attack_invariant a r R ha hR j hlb, adsr_sample_attack]
  rw [if_pos]
  left
  have hsum : (j : ℚ) / (a * R) + (1/a)/R = ((j : ℚ) + 1) / (a * R) := by
    rw [div_div]; ring
  rw [ge_iff_le, hsum, le_div_iff₀ haR, one_mul]
  have : ((j : ℕ) : ℚ) + 1 = ((⌈a * R⌉.toNat : ℕ) : ℚ) := by
    rw [hj]; push_cast; ring
  linarith [hub, this.ge]

theorem adsr_sustain_hold (a r R : ℚ) :
    ∀ m : ℕ, ADSR.sampleN ⟨a, 0, 1, r, 1, ADSRState.Decay⟩ R (m + 1) =
      ⟨a, 0, 1, r, 1, ADSRState.Sustain⟩ := by
  intro m
  induction m with
  | zero =>
    simp only [ADSR.sampleN]
    rw [adsr_sample_decay]
    rw [if_pos (Or.inr (by norm_num))]
  | succ m ih =>
    simp only [ADSR.sampleN] at ih ⊢
    rw [ih, adsr_sample_sustain]

theorem adsr_release_invariant (a r R : ℚ) (hr : 1/100000 < r) (hR : 0 < R) :
    ∀ j : ℕ,
      (ADSR.sampleN ⟨a, 0, 1, r, 1, ADSRState.Release⟩ R j =
          ⟨a, 0, 1, r, 1 - (j : ℚ) / (r * R), ADSRState.Release⟩ ∧
        1/100000 < 1 - (j : ℚ) / (r * R)) ∨
      ADSR.sampleN ⟨a, 0, 1, r, 1, ADSRState.Release⟩ R j =
        ⟨a, 0, 1, r, 0, ADSRState.Idle⟩ := by
  have hr0 : 0 < r := lt_trans (by norm_num) hr
  have hrR : 0 < r * R := mul_pos hr0 hR
  intro j
  induction j with
  | zero =>
    left
    constructor
    · simp [ADSR.sampleN]
    · norm_num
  | succ j ih =>
    rcases ih with ⟨heq, hgt⟩ | heq
    · simp only [ADSR.sampleN]
      rw [heq, adsr_sample_release]
      have hsub : 1 - (j : ℚ) / (r * R) - (1/r)/R = 1 - ((j : ℚ) + 1) / (r * R) := by
        rw [div_div]; ring
      by_cases hc : 1 - (j : ℚ) / (r * R) - (1/r)/R ≤ 1/100000
      · right
        rw [if_pos hc]
      · left
        rw [if_neg hc]
        constructor
        · rw [hsub]; push_cast; ring_nf
        · push_cast
          rw [hsub] at hc
          push_neg at hc
          linarith
    · right
      simp only [ADSR.sampleN]
      rw [heq, adsr_sample_idle]

theorem adsr_release_drain (a r R : ℚ) (hr : 1/100000 < r) (hR : 0 < R) :
    ADSR.sampleN ⟨a, 0, 1, r, 1, ADSRState.Release⟩ R (⌈r * R⌉.toNat) =
      ⟨a, 0, 1, r, 0, ADSRState.Idle⟩ := by
  have hr0 : 0 < r := lt_trans (by norm_num) hr
  have hrR : 0 < r * R := mul_pos hr0 hR
  have hceil : 0 < ⌈r * R⌉ := Int.ceil_pos.2 hrR
  have hkc : ((⌈r * R⌉.toNat : ℕ) : ℚ) = ((⌈r * R⌉ : ℤ) : ℚ) := by
    exact_mod_cast congrArg (fun z : ℤ => (z : ℚ)) (Int.toNat_of_nonneg (le_of_lt hceil))
  have hub : r * R ≤ ((⌈r * R⌉.toNat : ℕ) : ℚ) := by
    rw [hkc]; exact Int.le_ceil _
  rcases adsr_release_invariant a r R hr hR (⌈r * R⌉.toNat) with ⟨heq, hgt⟩ | heq
  · exfalso
    have h1 : 1 ≤ ((⌈r * R⌉.toNat : ℕ) : ℚ) / (r * R) := by
      rw [le_div_iff₀ hrR, one_mul]
      exact hub
    linarith
  · exact heq

/-- C1: with attack `a > 1e-5`, decay `0`, sustain `1`, release `r > 1e-5`
and sample rate `R > 0`, a freshly gated-on envelope reaches `out = 1` after
exactly `⌈a·R⌉` calls to `sample(R)` (strictly below `1` on every earlier
call), stays at `1` on every further call, and after `gate(false)` reaches
`out = 0` after `⌈r·R⌉` further calls. -/
theorem c1_envelope_adsr_timeline (a r R : ℚ) (ha : 1/100000 < a)
    (hr : 1/100000 < r) (hR : 0 < R) :
    (ADSR.sampleN ((ADSR.mk a 0 1 r 0 ADSRState.Idle).gate true) R (⌈a * R⌉.toNat)).out = 1 ∧
    (∀ j < ⌈a * R⌉.toNat,
      (ADSR.sampleN ((ADSR.mk a 0 1 r 0 ADSRState.Idle).gate true) R j).out < 1) ∧
    (∀ m, ⌈a * R⌉.toNat ≤ m →
      (ADSR.sampleN ((ADSR.mk a 0 1 r 0 ADSRState.Idle).gate true) R m).out = 1) ∧
    (∀ m, ⌈a * R⌉.toNat ≤ m →
      (ADSR.sampleN
        ((ADSR.sampleN ((ADSR.mk a 0 1 r 0 ADSRState.Idle).gate true) R m).gate false)
        R (⌈r * R⌉.toNat)).out = 0) := by
  have ha0 : 0 < a := lt_trans (by norm_num) ha
  have haR : 0 < a * R := mul_pos ha0 hR
  have hceil : 0 < ⌈a * R⌉ := Int.ceil_pos.2 haR
  have he0 : (ADSR.mk a 0 1 r 0 ADSRState.Idle).gate true =
      ⟨a, 0, 1, r, 0, ADSRState.Attack⟩ := rfl
  have hA : ADSR.sampleN ((ADSR.mk a 0 1 r 0 ADSRState.Idle).gate true) R (⌈a * R⌉.toNat) =
      ⟨a, 0, 1, r, 1, ADSRState.Decay⟩ := by
    rw [he0]; exact adsr_reach_one a r R ha hR
  have hgd : (ADSR.mk a 0 1 r 1 ADSRState.Decay).gate false =
      ⟨a, 0, 1, r, 1, ADSRState.Release⟩ := rfl
  have hgs : (ADSR.mk a 0 1 r 1 ADSRState.Sustain).gate false =
      ⟨a, 0, 1, r, 1, ADSRState.Release⟩ := rfl
  refine ⟨by rw [hA], ?_, ?_, ?_⟩
  · intro j hj
    have hjq : (j : ℚ) < a * R := by
      have : (j : ℤ) < ⌈a * R⌉ := by omega
      exact_mod_cast Int.lt_ceil.1 this
    rw [he0, adsr_attack_invariant a r R ha hR j hjq]
    exact (div_lt_one haR).2 hjq
  · intro m hm
    obtain ⟨t, ht⟩ : ∃ t, m = ⌈a * R⌉.toNat + t := ⟨m - ⌈a * R⌉.toNat, by omega⟩
    rw [ht, adsr_sampleN_add, hA]
    cases t with
    | zero => rfl
    | succ t => rw [adsr_sustain_hold]
  · intro m hm
    obtain ⟨t, ht⟩ : ∃ t, m = ⌈a * R⌉.toNat + t := ⟨m - ⌈a * R⌉.toNat, by omega⟩
    rw [ht, adsr_sampleN_add, hA]
    cases t with
    | zero =>
      rw [show ADSR.sampleN ⟨a, 0, 1, r, 1, ADSRState.Decay⟩ R 0 =
          ⟨a, 0, 1, r, 1, ADSRState.Decay⟩ from rfl]
      rw [hgd, adsr_release_drain a r R hr hR]
    | succ t =>
      rw [adsr_sustain_hold, hgs, adsr_release_drain a r R hr hR]

theorem c1_envelope_adsr_timeline_witness :
    (ADSR.sampleN ((ADSR.mk 1 0 1 1 0 ADSRState.Idle).gate true) 2 (⌈(1 : ℚ) * 2⌉.toNat)).out = 1 ∧
    (∀ j < ⌈(1 : ℚ) * 2⌉.toNat,
      (ADSR.sampleN ((ADSR.mk 1 0 1 1 0 ADSRState.Idle).gate true) 2 j).out < 1) ∧
    (∀ m, ⌈(1 : ℚ) * 2⌉.toNat ≤ m →
      (ADSR.sampleN ((ADSR.mk 1 0 1 1 0 ADSRState.Idle).gate true) 2 m).out = 1) ∧
    (∀ m, ⌈(1 : ℚ) * 2⌉.toNat ≤ m →
      (ADSR.sampleN
        ((ADSR.sampleN ((ADSR.mk 1 0 1 1 0 ADSRState.Idle).gate true) 2 m).gate false)
        2 (⌈(1 : ℚ) * 2⌉.toNat)).out = 0) :=
  c1_envelope_adsr_timeline 1 1 2 (by norm_num) (by norm_num) (by norm_num)

/-- C6: with `0 ≤ phase < 2π`, `0 ≤ freq < sampleRate`, `Phase::get` returns
the pre-advance phase, and the single conditional subtraction keeps the
advanced phase in `[0, 2π)`. -/
theorem c6_phase_invariant (phase freq rate : ℚ) (h0 : 0 ≤ phase)
    (h1 : phase < PI * 2) (hf : 0 ≤ freq) (hfr : freq < rate) :
    (Phase.get phase freq rate).1 = phase ∧
    0 ≤ (Phase.get phase freq rate).2 ∧ (Phase.get phase freq rate).2 < PI * 2 := by
  have hrate : 0 < rate := lt_of_le_of_lt hf hfr
  have hpi : 0 < PI * 2 := by norm_num [PI]
  have hd0 : 0 ≤ (PI * 2 * freq) / rate := by positivity
  have hd1 : (PI * 2 * freq) / rate < PI * 2 := by
    rw [div_lt_iff₀ hrate]
    have := mul_lt_mul_of_pos_left hfr hpi
    linarith
  unfold Phase.get
  dsimp only
  split_ifs with h
  · refine ⟨rfl, ?_, ?_⟩ <;> dsimp only <;> linarith
  · push_neg at h
    refine ⟨rfl, ?_, ?_⟩ <;> dsimp only <;> linarith

theorem c6_phase_invariant_witness :
    (Phase.get 0 1 2).1 = 0 ∧ 0 ≤ (Phase.get 0 1 2).2 ∧ (Phase.get 0 1 2).2 < PI * 2 :=
  c6_phase_invariant 0 1 2 (by norm_num) (by norm_num [PI]) (by norm_num) (by norm_num)

/-- C7: for an LFO phase value `p ∈ [0,1)`, the Major-chord arpeggio offset
is `0` on `[0,1/3)`, `4` on `[1/3,2/3)` and `7` on `[2/3,1)`, the selected
index never exceeds `2`, and the offset is never outside `{0,4,7}`. -/
theorem c7_arpeggio_major_offsets (p : ℚ) (h0 : 0 ≤ p) (h1 : p < 1) :
    (truncQ (p * 3)).toNat ≤ 2 ∧
    arpeggioOffset ArpeggioChord.Major p =
      (if p < 1/3 then 0 else if p < 2/3 then 4 else 7) ∧
    (arpeggioOffset ArpeggioChord.Major p = 0 ∨
     arpeggioOffset ArpeggioChord.Major p = 4 ∨
     arpeggioOffset ArpeggioChord.Major p = 7) := by
  have h3 : (0 : ℚ) ≤ p * 3 := by linarith
  have htr : truncQ (p * 3) = ⌊p * 3⌋ := by
    unfold truncQ; rw [if_neg (not_lt.2 h3)]
  have hfl0 : 0 ≤ ⌊p * 3⌋ := Int.floor_nonneg.2 h3
  have hfl3 : ⌊p * 3⌋ < 3 := Int.floor_lt.2 (by push_cast; linarith)
  have hcase : ⌊p * 3⌋ = 0 ∨ ⌊p * 3⌋ = 1 ∨ ⌊p * 3⌋ = 2 := by omega
  unfold arpeggioOffset
  rcases hcase with hc | hc | hc <;>
    obtain ⟨hlo, hhi⟩ := Int.floor_eq_iff.1 (by exact_mod_cast hc) <;>
    push_cast at hlo hhi <;>
    rw [htr, hc]
  · have hp : p < 1/3 := by linarith
    rw [if_pos hp]
    exact ⟨by norm_num, rfl, Or.inl rfl⟩
  · have hp1 : ¬ p < 1/3 := by push_neg; linarith
    have hp2 : p < 2/3 := by linarith
    rw [if_neg hp1, if_pos hp2]
    exact ⟨by norm_num, rfl, Or.inr (Or.inl rfl)⟩
  · have hp1 : ¬ p < 1/3 := by push_neg; linarith
    have hp2 : ¬ p < 2/3 := by push_neg; linarith
    rw [if_neg hp1, if_neg hp2]
    exact ⟨by norm_num, rfl, Or.inr (Or.inr rfl)⟩

theorem c7_arpeggio_major_offsets_witness :
    (truncQ ((1:ℚ)/2 * 3)).toNat ≤ 2 ∧
    arpeggioOffset ArpeggioChord.Major (1/2) =
      (if (1:ℚ)/2 < 1/3 then 0 else if (1:ℚ)/2 < 2/3 then 4 else 7) ∧
    (arpeggioOffset ArpeggioChord.Major (1/2) = 0 ∨
     arpeggioOffset ArpeggioChord.Major (1/2) = 4 ∨
     arpeggioOffset ArpeggioChord.Major (1/2) = 7) :=
  c7_arpeggio_major_offsets (1/2) (by norm_num) (by norm_num)

/-- C9: a Channel whose current Sound has a null instrument reference
produces exactly `0` for any tempo, step and sample rate. -/
theorem c9_null_instrument_silence (sinF : ℚ → ℚ) (rnd : ℕ → ℚ) (ch : Channel)
    (bpm stp sampleRate : ℚ) (h : ch.current.instrument = none) :
    (Channel.sample sinF rnd ch bpm stp sampleRate).1 = 0 := by
  unfold Channel.sample
  rw [h]

theorem c9_null_instrument_silence_witness :
    (Channel.sample sin0 rnd0 chNull 120 (1/22050) 22050).1 = 0 :=
  c9_null_instrument_silence sin0 rnd0 chNull 120 (1/22050) 22050 rfl

/-- C10: `Sound::frequency` clamps a negative note total to `0` (the lowest
C, 32.70320 Hz), otherwise returns `NOTE[n % 12] · 2^(n / 12)`, and the
table index is always within the 12-entry table. -/
theorem c10_note_table_bounds (s : Sound) (off : ℤ) :
    ((s.note : ℤ) + off < 0 → s.frequency off = 32.70320) ∧
    (0 ≤ (s.note : ℤ) + off →
      s.frequency off =
        NOTE.getD (((s.note : ℤ) + off).toNat % 12) 0 *
          (2 : ℚ) ^ (((s.note : ℤ) + off).toNat / 12)) ∧
    (if (s.note : ℤ) + off < 0 then 0 else (s.note : ℤ) + off).toNat % 12 < NOTE.length := by
  refine ⟨fun h => ?_, fun h => ?_, ?_⟩
  · unfold Sound.frequency
    dsimp only
    rw [if_pos h]
    norm_num [NOTE]
  · unfold Sound.frequency
    dsimp only
    rw [if_neg (not_lt.2 h)]
  · have hlen : NOTE.length = 12 := rfl
    rw [hlen]
    exact Nat.mod_lt _ (by norm_num)

theorem c10_note_table_bounds_witness :
    (((sndLow.note : ℤ) + (-10) < 0 → sndLow.frequency (-10) = 32.70320) ∧
    (0 ≤ (sndLow.note : ℤ) + (-10) →
      sndLow.frequency (-10) =
        NOTE.getD (((sndLow.note : ℤ) + (-10)).toNat % 12) 0 *
          (2 : ℚ) ^ (((sndLow.note : ℤ) + (-10)).toNat / 12)) ∧
    (if (sndLow.note : ℤ) + (-10) < 0 then 0 else (sndLow.note : ℤ) + (-10)).toNat % 12 <
      NOTE.length) :=
  c10_note_table_bounds sndLow (-10)

/-- C2: in `Channel::sample` the slide interpolation applies exactly when
the effect is Slide, the bar counter is a multiple of 4 and the sliding
flag is set; it then yields the linear interpolation from the previous
Sound's resolved frequency to the current one at fraction
`t = elapsedTime / beatDuration`, clearing the sliding flag iff
`t ≥ 1 − 1e-3`; otherwise the sliding flag is unchanged and (for a Slide
Sound) the current frequency is used unmodified. -/
theorem c2_slide_interpolation (sinF : ℚ → ℚ) (ch : Channel) (ins : Instrument)
    (bpm delay sampleRate : ℚ) :
    ((ch.current.effect = Effect.Slide ∧ ch.bar % 4 = 0 ∧ ch.sliding = true) →
      (Channel.resolveFrequency sinF ch ins bpm delay sampleRate).1 =
        LERP (ch.previous.frequency (ins.notes.getD ch.currentNote 0))
          (ch.current.frequency (ins.notes.getD ch.currentNote 0))
          (ch.time / delay) ∧
      ((Channel.resolveFrequency sinF ch ins bpm delay sampleRate).2.2 = false ↔
        ch.time / delay ≥ 1 - 1/1000)) ∧
    (¬(ch.current.effect = Effect.Slide ∧ ch.bar % 4 = 0 ∧ ch.sliding = true) →
      (Channel.resolveFrequency sinF ch ins bpm delay sampleRate).2.2 = ch.sliding ∧
      (ch.current.effect = Effect.Slide →
        (Channel.resolveFrequency sinF ch ins bpm delay sampleRate).1 =
          ch.current.frequency (ins.notes.getD ch.currentNote 0))) := by
  constructor
  · rintro ⟨he, hb, hs⟩
    unfold Channel.resolveFrequency
    simp [he, hb, hs]
  · intro hn
    constructor
    · unfold Channel.resolveFrequency
      simp [hn]
    · intro he
      have hn2 : ¬(ch.bar % 4 = 0 ∧ ch.sliding = true) := fun hc => hn ⟨he, hc⟩
      unfold Channel.resolveFrequency
      simp [he, hn2]

theorem c2_slide_interpolation_witness :
    (Channel.resolveFrequency sin0 chSlide insFix 120 (1/2) 22050).1 =
      LERP (chSlide.previous.frequency (insFix.notes.getD chSlide.currentNote 0))
        (chSlide.current.frequency (insFix.notes.getD chSlide.currentNote 0))
        (chSlide.time / (1/2)) ∧
    ((Channel.resolveFrequency sin0 chSlide insFix 120 (1/2) 22050).2.2 = false ↔
      chSlide.time / (1/2) ≥ 1 - 1/1000) :=
  (c2_slide_interpolation sin0 chSlide insFix 120 (1/2) 22050).1 ⟨rfl, rfl, rfl⟩
